import Mathlib

/-!
# Verification of the render-log browser parsing core

Shallow embedding of `src/main.py` (class `LogBrowserModel` and the
`browse_on_key_pressed` control flow of `MainWindow`).  Lines are modelled as
`List Char`; Python `re.search` against each of the module's fixed regex
constants is modelled by a dedicated leftmost-search function; the mutable
model object is modelled as a record threaded through an explicit fold.
-/

set_option maxHeartbeats 1000000

/-- A log line / string, as a list of characters. -/
abbrev Str := List Char

/-- RENDER_TIME_REGEX literal part: the regex is `render done in (.*)$`. -/
def renderMarker : Str := ("render done in ").data

/-- WARNING_REGEX literal part: the regex is `WARNING(.*)`. -/
def warnMarker : Str := ("WARNING").data

/-- ERROR_REGEX literal part: the regex is `ERROR(.*)`. -/
def errMarker : Str := ("ERROR").data

/--
`re.search` tries the pattern at every start position from the left and
returns the first success; this combinator does the same given the
deterministic single-position matcher `attempt` (the position at end of
string, i.e. the empty suffix, is tried as well, as `re.search` does).
-/
def searchFirst {α : Type} (attempt : Str → Option α) : Str → Option α
  | [] => attempt []
  | c :: t =>
    match attempt (c :: t) with
    | some r => some r
    | none => searchFirst attempt t

/--
Matcher for `(.*)$` (no MULTILINE, `.` does not match a newline): `.*`
greedily takes the maximal newline-free prefix, after which `$` accepts
exactly at the end of the string or just before a single final newline.
Backtracking `.*` to a shorter prefix can never reach another position where
`$` holds, so the greedy reading is exact.  Returns the captured group.
-/
def tailCapture (rest : Str) : Option Str :=
  match rest.dropWhile (fun c => c ≠ '\n') with
  | [] => some (rest.takeWhile (fun c => c ≠ '\n'))
  | '\n' :: [] => some (rest.takeWhile (fun c => c ≠ '\n'))
  | _ => none

/-- Single-position matcher for RENDER_TIME_REGEX `render done in (.*)$`,
returning group 1 (the tail). -/
def renderAttempt (s : Str) : Option Str :=
  if renderMarker.isPrefixOf s then tailCapture (s.drop renderMarker.length)
  else none

/-- Single-position matcher for `WARNING(.*)` / `ERROR(.*)` with the given
literal marker, returning group 0: the marker followed by the greedy
newline-free remainder. -/
def markerAttempt (marker : Str) (s : Str) : Option Str :=
  if marker.isPrefixOf s then
    some (marker ++ (s.drop marker.length).takeWhile (fun c => c ≠ '\n'))
  else none

/-- Character classes of the fixed-width part `\d{2}\:\d{2}\:\d{2}` shared by
the three memory regexes. -/
def timePat : List (Char → Bool) :=
  Char.isDigit :: Char.isDigit :: (fun c => c = ':') ::
  Char.isDigit :: Char.isDigit :: (fun c => c = ':') ::
  Char.isDigit :: Char.isDigit :: []

/-- Does the string start with the given sequence of character classes? -/
def matchesClasses : List (Char → Bool) → Str → Bool
  | [], _ => true
  | _ :: _, [] => false
  | p :: ps, c :: cs => p c && matchesClasses ps cs

/-- The literal `MB` token of the memory regexes: succeeds when the string
starts with `MB` and returns the remainder after it. -/
def mbTail (s : Str) : Option Str :=
  if s.take 2 = ('M' :: 'B' :: []) then some (s.drop 2) else none

/-- The literal `\|` token of MEMORY_USAGE_REGEX: does the string start with
a pipe? -/
def pipeStart (s : Str) : Bool :=
  decide (s.head? = some '|')

/--
Single-position matcher for MEMORY_USAGE_REGEX
`\d{2}\:\d{2}\:\d{2}\ +\d+MB\ +\|`, returning group 0 (the whole match).
Each greedy quantifier (`\ +`, `\d+`) is followed by a token that cannot
match a character of the quantifier's class (a digit after spaces, `M` after
digits, `|` after spaces), so greedy matching without backtracking is exact.
-/
def memAttempt (s : Str) : Option Str :=
  if matchesClasses timePat s then
    let time := s.take 8
    let r1 := s.drop 8
    let sp1 := r1.takeWhile (fun c => c = ' ')
    let r2 := r1.dropWhile (fun c => c = ' ')
    if sp1.isEmpty then none
    else
      let ds := r2.takeWhile Char.isDigit
      let r3 := r2.dropWhile Char.isDigit
      if ds.isEmpty then none
      else
        match mbTail r3 with
        | some r4 =>
          let sp2 := r4.takeWhile (fun c => c = ' ')
          let r5 := r4.dropWhile (fun c => c = ' ')
          if sp2.isEmpty then none
          else if pipeStart r5 then
            some (time ++ sp1 ++ ds ++ ('M' :: 'B' :: (sp2 ++ ('|' :: []))))
          else none
        | none => none
  else none

/-- Single-position matcher for TIME_ELAPSED_REGEX
`(\d{2}\:\d{2}\:\d{2})\ +\d+MB`, returning group 1 (the `HH:MM:SS` part). -/
def timeAttempt (s : Str) : Option Str :=
  if matchesClasses timePat s then
    let r1 := s.drop 8
    let sp1 := r1.takeWhile (fun c => c = ' ')
    let r2 := r1.dropWhile (fun c => c = ' ')
    if sp1.isEmpty then none
    else
      let ds := r2.takeWhile Char.isDigit
      let r3 := r2.dropWhile Char.isDigit
      if ds.isEmpty then none
      else
        match mbTail r3 with
        | some _ => some (s.take 8)
        | none => none
  else none

/-- Single-position matcher for MEMORY_USAGE_TIME_REGEX
`\d{2}\:\d{2}\:\d{2}\ +(\d+MB)`, returning group 1 (the `<digits>MB` part). -/
def memTimeAttempt (s : Str) : Option Str :=
  if matchesClasses timePat s then
    let r1 := s.drop 8
    let sp1 := r1.takeWhile (fun c => c = ' ')
    let r2 := r1.dropWhile (fun c => c = ' ')
    if sp1.isEmpty then none
    else
      let ds := r2.takeWhile Char.isDigit
      let r3 := r2.dropWhile Char.isDigit
      if ds.isEmpty then none
      else
        match mbTail r3 with
        | some _ => some (ds ++ ('M' :: 'B' :: []))
        | none => none
  else none

/-- Python truthiness of an optional string (`None` and `""` are falsy). -/
def truthyOpt (o : Option Str) : Bool :=
  match o with
  | none => false
  | some s => !s.isEmpty

/-- Python `dict.get`: value of the first (unique) entry with this key. -/
def dictGet (d : List (Option Str × Str)) (k : Option Str) : Option Str :=
  match d with
  | [] => none
  | (k', v) :: t => if k' = k then some v else dictGet t k

/-- Python `dict[k] = v`: replace in place if the key is present, otherwise
append at the end (insertion order is preserved). -/
def dictSet (d : List (Option Str × Str)) (k : Option Str) (v : Str) :
    List (Option Str × Str) :=
  match d with
  | [] => (k, v) :: []
  | (k', v') :: t => if k' = k then (k, v) :: t else (k', v') :: dictSet t k v

/-- The mutable state of `LogBrowserModel` (its five data attributes). -/
structure LogBrowserModel where
  raw_log : List Str
  render_time : Option Str
  memory_usage : List (Option Str × Str)
  warnings : List Str
  errors : List Str
deriving DecidableEq

/-- The state set up by `LogBrowserModel.__init__`. -/
def initialModel : LogBrowserModel :=
  { raw_log := [], render_time := none, memory_usage := [], warnings := [],
    errors := [] }

/-- `LogBrowserModel.reset_data`: reset every stored attribute. -/
def reset_data (_m : LogBrowserModel) : LogBrowserModel :=
  { raw_log := [], render_time := none, memory_usage := [], warnings := [],
    errors := [] }

/-- `LogBrowserModel.store_raw_log`: the lines delivered by
`open(file_path).readlines()` are stored as the raw log. -/
def store_raw_log (m : LogBrowserModel) (lines : List Str) : LogBrowserModel :=
  { m with raw_log := lines }

/-- The render-time block of the `parse_log` loop body (lines 122-125):
`extract_regex_match(RENDER_TIME_REGEX, line, 1)` followed by a truthiness
check before the store. -/
def renderStep (m : LogBrowserModel) (line : Str) : LogBrowserModel :=
  match searchFirst renderAttempt line with
  | some rt => if rt.isEmpty then m else { m with render_time := some rt }
  | none => m

/-- The memory-usage block of the `parse_log` loop body (lines 127-138):
match the line against MEMORY_USAGE_REGEX (group 0), extract the elapsed-time
key and the `<digits>MB` value from the matched span, and store the pair
unless `memory_usage.get(time_elapsed)` is truthy. -/
def memoryStep (m : LogBrowserModel) (line : Str) : LogBrowserModel :=
  match searchFirst memAttempt line with
  | some span =>
    if span.isEmpty then m
    else
      let te := searchFirst timeAttempt span
      if truthyOpt (dictGet m.memory_usage te) then m
      else
        match searchFirst memTimeAttempt span with
        | some mt =>
          if mt.isEmpty then m
          else { m with memory_usage := dictSet m.memory_usage te mt }
        | none => m
  | none => m

/-- The warning block of the `parse_log` loop body (lines 140-143). -/
def warnStep (m : LogBrowserModel) (line : Str) : LogBrowserModel :=
  match searchFirst (markerAttempt warnMarker) line with
  | some w => if w.isEmpty then m else { m with warnings := m.warnings ++ (w :: []) }
  | none => m

/-- The error block of the `parse_log` loop body (lines 145-148). -/
def errStep (m : LogBrowserModel) (line : Str) : LogBrowserModel :=
  match searchFirst (markerAttempt errMarker) line with
  | some e => if e.isEmpty then m else { m with errors := m.errors ++ (e :: []) }
  | none => m

/-- One iteration of the `parse_log` loop: the four blocks in source order. -/
def parse_line (m : LogBrowserModel) (line : Str) : LogBrowserModel :=
  errStep (warnStep (memoryStep (renderStep m line) line) line) line

/-- `LogBrowserModel.parse_log`: analyze every line of the stored raw log. -/
def parse_log (m : LogBrowserModel) : LogBrowserModel :=
  m.raw_log.foldl parse_line m

/-- The reset-store-parse sequence performed by the browse handlers
(`clean_window_and_stored_data` then `set_tabs`). -/
def load_and_parse (m : LogBrowserModel) (lines : List Str) : LogBrowserModel :=
  parse_log (store_raw_log (reset_data m) lines)

/-- The abstract `parse` operation of the spec: one fresh pass over the
given lines. -/
def parse (lines : List Str) : LogBrowserModel :=
  load_and_parse initialModel lines

/-- The ParseResult of the spec: the four outputs of one parse pass (the raw
log itself is not part of the result). -/
structure ParseResult where
  render_time : Option Str
  memory_usage : List (Option Str × Str)
  warnings : List Str
  errors : List Str
deriving DecidableEq

/-- Read the four result fields out of a model state. -/
def parseResultOf (m : LogBrowserModel) : ParseResult :=
  { render_time := m.render_time, memory_usage := m.memory_usage,
    warnings := m.warnings, errors := m.errors }

/-- All values stored in the dict are nonempty strings (Python-truthy). -/
def goodDict (d : List (Option Str × Str)) : Prop :=
  ∀ kv ∈ d, kv.2 ≠ ([] : Str)

/-- The render-time tail actually stored by a line: the captured group, with
empty captures discarded by the truthiness check `if render_time:`. -/
def renderCapture (line : Str) : Option Str :=
  match searchFirst renderAttempt line with
  | some rt => if rt.isEmpty then none else some rt
  | none => none

/-- The `<digits>MB` label inside a span matched by MEMORY_USAGE_REGEX:
skip the `HH:MM:SS` part and the spaces, take the digits, append `MB`. -/
def memLabel (span : Str) : Str :=
  ((span.drop 8).dropWhile (fun c => c = ' ')).takeWhile Char.isDigit
    ++ ('M' :: 'B' :: [])

/-- The dict key contributed by a line, if its memory-usage regex matches. -/
def memKey (line : Str) : Option (Option Str) :=
  (searchFirst memAttempt line).map (fun span => some (span.take 8))

/-- First-occurrence accumulation of a key sequence on top of already-seen
keys: a key already seen is skipped, a new key is appended once. -/
def addKeys (seen : List (Option Str)) : List (Option Str) → List (Option Str)
  | [] => seen
  | k :: ks => if k ∈ seen then addKeys seen ks else addKeys (seen ++ (k :: [])) ks

/-- Remove the trailing newline of a line, when present (what `rstrip` of the
line terminator would do to a `readlines` line). -/
def stripTrailingNl (l : Str) : Str :=
  if l.getLast? = some '\n' then l.dropLast else l

/-- Newline occurs in the line only as its final character — true of every
line produced by `readlines`. -/
def noInteriorNl (l : Str) : Prop :=
  ('\n') ∉ l.dropLast

/-- The spec's `FileAccessError`: the failure outcome of the read stage.
`wrongPath` is the `wrong_file_path` branch of `browse_on_key_pressed`
(the path fails the existence/extension guard); `cannotOpen` is the error
that `open` raises inside `store_raw_log` for an unreadable path. -/
inductive FileAccessError where
  | wrongPath : FileAccessError
  | cannotOpen : FileAccessError
deriving DecidableEq

/-- Modelled from the spec: the I/O half of `store_raw_log`
(`open(file_path)` then `readlines()`), which is runtime I/O rather than
pure code under `src/`.  The file system is abstracted as a partial map from
paths to line sequences; `none` means the path does not exist or cannot be
opened for reading, in which case the read stage fails with a
`FileAccessError` (spec §4.1). -/
def readLines (fs : Str → Option (List Str)) (path : Str) :
    Except FileAccessError (List Str) :=
  match fs path with
  | some lines => Except.ok lines
  | none => Except.error FileAccessError.cannotOpen

/-- `MainWindow.browse_on_key_pressed` (lines 210-223): reset the stored
data, reject a path failing the existence/extension guard
(`wrong_file_path`), otherwise read the file and parse (`set_tabs`); a read
failure aborts before `parse_log` runs.  Returns the final model state and
the surfaced error, if any. -/
def browse_on_key_pressed (fs : Str → Option (List Str))
    (pathExists isLogExt : Str → Bool) (m : LogBrowserModel) (path : Str) :
    LogBrowserModel × Option FileAccessError :=
  let m0 := reset_data m
  if pathExists path && isLogExt path then
    match readLines fs path with
    | Except.ok lines => (parse_log (store_raw_log m0 lines), none)
    | Except.error e => (m0, some e)
  else (m0, some FileAccessError.wrongPath)

instance (l : Str) : Decidable (noInteriorNl l) :=
  inferInstanceAs (Decidable (('\n') ∉ l.dropLast))

instance (d : List (Option Str × Str)) : Decidable (goodDict d) :=
  inferInstanceAs (Decidable (∀ kv ∈ d, kv.2 ≠ ([] : Str)))

/-! ## Helper lemmas on lists -/

theorem takeWhile_concat_neg {p : Char → Bool} {c : Char} (h : p c = false)
    (x : Str) : (x ++ (c :: [])).takeWhile p = x.takeWhile p := by
  induction x with
  | nil => simp [List.takeWhile, h]
  | cons a t ih =>
    simp only [List.cons_append, List.takeWhile]
    cases p a <;> simp [ih]

theorem dropWhile_concat_neg {p : Char → Bool} {c : Char} (h : p c = false)
    (x : Str) : (x ++ (c :: [])).dropWhile p = x.dropWhile p ++ (c :: []) := by
  induction x with
  | nil => simp [List.dropWhile, h]
  | cons a t ih =>
    simp only [List.cons_append, List.dropWhile]
    cases p a <;> simp [ih]

theorem takeWhile_all_cons {p : Char → Bool} {x : Str} {b : Char}
    (hx : ∀ a ∈ x, p a = true) (hb : p b = false) (y : Str) :
    (x ++ b :: y).takeWhile p = x := by
  induction x with
  | nil => simp [List.takeWhile, hb]
  | cons a t ih =>
    have ha : p a = true := hx a (by simp)
    simp only [List.cons_append, List.takeWhile, ha, List.append_eq]
    rw [ih (fun a h => hx a (by simp [h]))]

theorem dropWhile_all_cons {p : Char → Bool} {x : Str} {b : Char}
    (hx : ∀ a ∈ x, p a = true) (hb : p b = false) (y : Str) :
    (x ++ b :: y).dropWhile p = b :: y := by
  induction x with
  | nil => simp [List.dropWhile, hb]
  | cons a t ih =>
    have ha : p a = true := hx a (by simp)
    simp only [List.cons_append, List.dropWhile, ha]
    exact ih (fun a h => hx a (by simp [h]))

theorem takeWhile_all {p : Char → Bool} {x : Str} (hx : ∀ a ∈ x, p a = true) :
    x.takeWhile p = x := by
  induction x with
  | nil => rfl
  | cons a t ih =>
    have ha : p a = true := hx a (by simp)
    simp only [List.takeWhile, ha]
    rw [ih (fun a h => hx a (by simp [h]))]

theorem dropWhile_all {p : Char → Bool} {x : Str} (hx : ∀ a ∈ x, p a = true) :
    x.dropWhile p = [] := by
  induction x with
  | nil => rfl
  | cons a t ih =>
    have ha : p a = true := hx a (by simp)
    simp only [List.dropWhile, ha]
    exact ih (fun a h => hx a (by simp [h]))

/-! ## Lemmas on `matchesClasses` -/

theorem matchesClasses_length {ps : List (Char → Bool)} {s : Str}
    (h : matchesClasses ps s = true) : ps.length ≤ s.length := by
  induction ps generalizing s with
  | nil => simp
  | cons p pt ih =>
    cases s with
    | nil => simp [matchesClasses] at h
    | cons c ct =>
      simp only [matchesClasses, Bool.and_eq_true] at h
      simpa using Nat.succ_le_succ (ih h.2)

theorem matchesClasses_append {ps : List (Char → Bool)} {x : Str}
    (h : x.length = ps.length) (y : Str) :
    matchesClasses ps (x ++ y) = matchesClasses ps x := by
  induction ps generalizing x with
  | nil => simp [matchesClasses]
  | cons p pt ih =>
    cases x with
    | nil => simp at h
    | cons c ct =>
      simp only [List.length_cons, List.length_cons, Nat.succ.injEq] at h
      simp only [List.cons_append, matchesClasses, List.append_eq]
      rw [ih h]

theorem matchesClasses_concat_neg {ps : List (Char → Bool)} {c : Char}
    (hc : ∀ p ∈ ps, p c = false) (t : Str) :
    matchesClasses ps (t ++ (c :: [])) = matchesClasses ps t := by
  induction ps generalizing t with
  | nil => simp [matchesClasses]
  | cons p pt ih =>
    cases t with
    | nil =>
      have : p c = false := hc p (by simp)
      simp [matchesClasses, this]
    | cons a t' =>
      simp only [List.cons_append, matchesClasses, List.append_eq]
      rw [ih (fun q h => hc q (by simp [h]))]

/-! ## Lemmas on the Python-dict model -/

theorem dictGet_isSome_iff (d : List (Option Str × Str)) (k : Option Str) :
    (dictGet d k).isSome = true ↔ k ∈ d.map Prod.fst := by
  induction d with
  | nil => simp [dictGet]
  | cons kv t ih =>
    obtain ⟨k', v⟩ := kv
    by_cases h : k' = k
    · subst h; simp [dictGet]
    · simp only [dictGet, if_neg h, List.map_cons, List.mem_cons]
      rw [ih]
      constructor
      · exact fun hm => Or.inr hm
      · rintro (hm | hm)
        · exact absurd hm.symm h
        · exact hm

theorem dictGet_mem {d : List (Option Str × Str)} {k : Option Str} {v : Str}
    (h : dictGet d k = some v) : (k, v) ∈ d := by
  induction d with
  | nil => simp [dictGet] at h
  | cons kv t ih =>
    obtain ⟨k', v'⟩ := kv
    by_cases hk : k' = k
    · subst hk
      simp only [dictGet, if_true, eq_self_iff_true, if_pos] at h
      rw [Option.some.injEq] at h
      subst h; simp
    · simp only [dictGet, if_neg hk] at h
      simp [ih h]

theorem dictSet_of_absent {d : List (Option Str × Str)} {k : Option Str}
    (h : dictGet d k = none) (v : Str) : dictSet d k v = d ++ ((k, v) :: []) := by
  induction d with
  | nil => simp [dictSet]
  | cons kv t ih =>
    obtain ⟨k', v'⟩ := kv
    by_cases hk : k' = k
    · subst hk; simp [dictGet] at h
    · simp only [dictGet, if_neg hk] at h
      simp [dictSet, if_neg hk, ih h]

theorem goodDict_truthy {d : List (Option Str × Str)} (hd : goodDict d)
    (k : Option Str) : truthyOpt (dictGet d k) = (dictGet d k).isSome := by
  cases h : dictGet d k with
  | none => simp [truthyOpt]
  | some v =>
    have hv : v ≠ [] := hd _ (dictGet_mem h)
    simp [truthyOpt, List.isEmpty_iff, hv]

/-! ## Lemmas on `searchFirst` -/

theorem searchFirst_of_attempt {α : Type} {attempt : Str → Option α} {s : Str}
    {r : α} (h : attempt s = some r) : searchFirst attempt s = some r := by
  cases s with
  | nil => simpa [searchFirst] using h
  | cons c t => simp [searchFirst, h]

theorem searchFirst_isSome_of_suffix {α : Type} {attempt : Str → Option α}
    {t l : Str} (hs : t <:+ l) (h : (attempt t).isSome = true) :
    (searchFirst attempt l).isSome = true := by
  induction l with
  | nil =>
    have : t = [] := List.suffix_nil.mp hs
    subst this
    simpa [searchFirst] using h
  | cons c l' ih =>
    rcases List.suffix_cons_iff.mp hs with h1 | h1
    · subst h1
      cases ha : attempt (c :: l') with
      | none => simp [ha] at h
      | some r => simp [searchFirst, ha]
    · cases ha : attempt (c :: l') with
      | none => simpa [searchFirst, ha] using ih h1
      | some r => simp [searchFirst, ha]

theorem searchFirst_exists_suffix {α : Type} {attempt : Str → Option α}
    {l : Str} {r : α} (h : searchFirst attempt l = some r) :
    ∃ t, t <:+ l ∧ attempt t = some r := by
  induction l with
  | nil => exact ⟨[], List.nil_suffix, by simpa [searchFirst] using h⟩
  | cons c l' ih =>
    cases ha : attempt (c :: l') with
    | some r' =>
      simp only [searchFirst, ha] at h
      exact ⟨c :: l', List.suffix_refl _, ha.trans h⟩
    | none =>
      simp only [searchFirst, ha] at h
      obtain ⟨t, hts, hta⟩ := ih h
      exact ⟨t, hts.trans (List.suffix_cons c l'), hta⟩

theorem searchFirst_concat {α : Type} {attempt : Str → Option α} {c : Char}
    (s : Str) (h : ∀ t, t <:+ s → attempt (t ++ (c :: [])) = attempt t) :
    searchFirst attempt (s ++ (c :: [])) = searchFirst attempt s := by
  induction s with
  | nil =>
    have h0 : attempt (c :: []) = attempt [] := h [] (List.suffix_refl _)
    cases ha : attempt [] with
    | none => simp [searchFirst, h0, ha]
    | some r => simp [searchFirst, h0, ha]
  | cons a t ih =>
    have hself : attempt (a :: (t ++ (c :: []))) = attempt (a :: t) := by
      have hh := h (a :: t) (List.suffix_refl _)
      simpa using hh
    have ihh : searchFirst attempt (t ++ (c :: [])) = searchFirst attempt t :=
      ih (fun u hu => h u (hu.trans (List.suffix_cons a t)))
    have lhs : searchFirst attempt ((a :: t) ++ (c :: [])) =
        (match attempt (a :: (t ++ (c :: []))) with
         | some r => some r
         | none => searchFirst attempt (t ++ (c :: []))) := rfl
    rw [lhs, hself, ihh]
    rfl

/-! ## Field behaviour of the four loop-body blocks -/

theorem renderStep_raw (m : LogBrowserModel) (l : Str) :
    (renderStep m l).raw_log = m.raw_log := by
  unfold renderStep
  cases searchFirst renderAttempt l with
  | none => rfl
  | some rt =>
    dsimp only
    split <;> rfl

theorem renderStep_mem (m : LogBrowserModel) (l : Str) :
    (renderStep m l).memory_usage = m.memory_usage := by
  unfold renderStep
  cases searchFirst renderAttempt l with
  | none => rfl
  | some rt =>
    dsimp only
    split <;> rfl

theorem renderStep_warn (m : LogBrowserModel) (l : Str) :
    (renderStep m l).warnings = m.warnings := by
  unfold renderStep
  cases searchFirst renderAttempt l with
  | none => rfl
  | some rt =>
    dsimp only
    split <;> rfl

theorem renderStep_err (m : LogBrowserModel) (l : Str) :
    (renderStep m l).errors = m.errors := by
  unfold renderStep
  cases searchFirst renderAttempt l with
  | none => rfl
  | some rt =>
    dsimp only
    split <;> rfl

theorem memoryStep_raw (m : LogBrowserModel) (l : Str) :
    (memoryStep m l).raw_log = m.raw_log := by
  unfold memoryStep
  cases searchFirst memAttempt l with
  | none => rfl
  | some span =>
    dsimp only
    split
    · rfl
    · split
      · rfl
      · cases searchFirst memTimeAttempt span with
        | none => rfl
        | some mt =>
          dsimp only
          split <;> rfl

theorem memoryStep_render (m : LogBrowserModel) (l : Str) :
    (memoryStep m l).render_time = m.render_time := by
  unfold memoryStep
  cases searchFirst memAttempt l with
  | none => rfl
  | some span =>
    dsimp only
    split
    · rfl
    · split
      · rfl
      · cases searchFirst memTimeAttempt span with
        | none => rfl
        | some mt =>
          dsimp only
          split <;> rfl

theorem memoryStep_warn (m : LogBrowserModel) (l : Str) :
    (memoryStep m l).warnings = m.warnings := by
  unfold memoryStep
  cases searchFirst memAttempt l with
  | none => rfl
  | some span =>
    dsimp only
    split
    · rfl
    · split
      · rfl
      · cases searchFirst memTimeAttempt span with
        | none => rfl
        | some mt =>
          dsimp only
          split <;> rfl

theorem memoryStep_err (m : LogBrowserModel) (l : Str) :
    (memoryStep m l).errors = m.errors := by
  unfold memoryStep
  cases searchFirst memAttempt l with
  | none => rfl
  | some span =>
    dsimp only
    split
    · rfl
    · split
      · rfl
      · cases searchFirst memTimeAttempt span with
        | none => rfl
        | some mt =>
          dsimp only
          split <;> rfl

theorem warnStep_raw (m : LogBrowserModel) (l : Str) :
    (warnStep m l).raw_log = m.raw_log := by
  unfold warnStep
  cases searchFirst (markerAttempt warnMarker) l with
  | none => rfl
  | some w =>
    dsimp only
    split <;> rfl

theorem warnStep_render (m : LogBrowserModel) (l : Str) :
    (warnStep m l).render_time = m.render_time := by
  unfold warnStep
  cases searchFirst (markerAttempt warnMarker) l with
  | none => rfl
  | some w =>
    dsimp only
    split <;> rfl

theorem warnStep_mem (m : LogBrowserModel) (l : Str) :
    (warnStep m l).memory_usage = m.memory_usage := by
  unfold warnStep
  cases searchFirst (markerAttempt warnMarker) l with
  | none => rfl
  | some w =>
    dsimp only
    split <;> rfl

theorem warnStep_err (m : LogBrowserModel) (l : Str) :
    (warnStep m l).errors = m.errors := by
  unfold warnStep
  cases searchFirst (markerAttempt warnMarker) l with
  | none => rfl
  | some w =>
    dsimp only
    split <;> rfl

theorem errStep_raw (m : LogBrowserModel) (l : Str) :
    (errStep m l).raw_log = m.raw_log := by
  unfold errStep
  cases searchFirst (markerAttempt errMarker) l with
  | none => rfl
  | some e =>
    dsimp only
    split <;> rfl

theorem errStep_render (m : LogBrowserModel) (l : Str) :
    (errStep m l).render_time = m.render_time := by
  unfold errStep
  cases searchFirst (markerAttempt errMarker) l with
  | none => rfl
  | some e =>
    dsimp only
    split <;> rfl

theorem errStep_mem (m : LogBrowserModel) (l : Str) :
    (errStep m l).memory_usage = m.memory_usage := by
  unfold errStep
  cases searchFirst (markerAttempt errMarker) l with
  | none => rfl
  | some e =>
    dsimp only
    split <;> rfl

theorem errStep_warn (m : LogBrowserModel) (l : Str) :
    (errStep m l).warnings = m.warnings := by
  unfold errStep
  cases searchFirst (markerAttempt errMarker) l with
  | none => rfl
  | some e =>
    dsimp only
    split <;> rfl

/-! ## Accumulation behaviour of warnings, errors, and render time -/

theorem markerSearch_ne_nil {marker l w : Str} (hm : marker ≠ [])
    (h : searchFirst (markerAttempt marker) l = some w) : w ≠ [] := by
  obtain ⟨t, _, ht⟩ := searchFirst_exists_suffix h
  unfold markerAttempt at ht
  by_cases hp : marker.isPrefixOf t
  · rw [if_pos hp, Option.some.injEq] at ht
    subst ht
    simp [hm]
  · rw [if_neg hp] at ht
    exact absurd ht (by simp)

theorem warnStep_warnings (m : LogBrowserModel) (l : Str) :
    (warnStep m l).warnings
      = m.warnings ++ (searchFirst (markerAttempt warnMarker) l).toList := by
  unfold warnStep
  cases h : searchFirst (markerAttempt warnMarker) l with
  | none => simp
  | some w =>
    have hw : w ≠ [] := markerSearch_ne_nil (by decide) h
    simp [List.isEmpty_iff, hw]

theorem errStep_errors (m : LogBrowserModel) (l : Str) :
    (errStep m l).errors
      = m.errors ++ (searchFirst (markerAttempt errMarker) l).toList := by
  unfold errStep
  cases h : searchFirst (markerAttempt errMarker) l with
  | none => simp
  | some e =>
    have he : e ≠ [] := markerSearch_ne_nil (by decide) h
    simp [List.isEmpty_iff, he]

theorem parse_line_warnings (m : LogBrowserModel) (l : Str) :
    (parse_line m l).warnings
      = m.warnings ++ (searchFirst (markerAttempt warnMarker) l).toList := by
  unfold parse_line
  rw [errStep_warn, warnStep_warnings, memoryStep_warn, renderStep_warn]

theorem parse_line_errors (m : LogBrowserModel) (l : Str) :
    (parse_line m l).errors
      = m.errors ++ (searchFirst (markerAttempt errMarker) l).toList := by
  unfold parse_line
  rw [errStep_errors, warnStep_err, memoryStep_err, renderStep_err]

theorem foldl_warnings (lines : List Str) : ∀ m : LogBrowserModel,
    (lines.foldl parse_line m).warnings
      = m.warnings ++ lines.filterMap (fun l => searchFirst (markerAttempt warnMarker) l) := by
  induction lines with
  | nil => intro m; simp
  | cons l ls ih =>
    intro m
    simp only [List.foldl_cons, ih, parse_line_warnings]
    cases h : searchFirst (markerAttempt warnMarker) l <;>
      simp [h, List.filterMap_cons]

theorem foldl_errors (lines : List Str) : ∀ m : LogBrowserModel,
    (lines.foldl parse_line m).errors
      = m.errors ++ lines.filterMap (fun l => searchFirst (markerAttempt errMarker) l) := by
  induction lines with
  | nil => intro m; simp
  | cons l ls ih =>
    intro m
    simp only [List.foldl_cons, ih, parse_line_errors]
    cases h : searchFirst (markerAttempt errMarker) l <;>
      simp [h, List.filterMap_cons]

theorem renderStep_render (m : LogBrowserModel) (l : Str) :
    (renderStep m l).render_time = (renderCapture l).or m.render_time := by
  unfold renderStep renderCapture
  cases h : searchFirst renderAttempt l with
  | none => simp [Option.or]
  | some rt =>
    dsimp only
    by_cases he : rt.isEmpty <;> simp [he, Option.or]

theorem parse_line_render (m : LogBrowserModel) (l : Str) :
    (parse_line m l).render_time = (renderCapture l).or m.render_time := by
  unfold parse_line
  rw [errStep_render, warnStep_render, memoryStep_render, renderStep_render]

theorem getLast?_cons_or {α : Type} (t : α) (X : List α) :
    (t :: X).getLast? = X.getLast?.or (some t) := by
  cases X with
  | nil => simp [Option.or]
  | cons u X' =>
    rw [List.getLast?_cons_cons]
    cases h : (u :: X').getLast? with
    | none => simp at h
    | some v => simp [Option.or]

theorem foldl_render (lines : List Str) : ∀ m : LogBrowserModel,
    (lines.foldl parse_line m).render_time
      = (lines.filterMap renderCapture).getLast?.or m.render_time := by
  induction lines with
  | nil => intro m; simp [Option.or]
  | cons l ls ih =>
    intro m
    simp only [List.foldl_cons, ih, parse_line_render]
    cases h : renderCapture l with
    | none => simp [h, List.filterMap_cons]
    | some t =>
      simp only [List.filterMap_cons, h, getLast?_cons_or]
      cases (ls.filterMap renderCapture).getLast? <;> simp [Option.or]

/-! ## The memory-usage span and its two sub-extractions -/

theorem memLabel_ne_nil (span : Str) : memLabel span ≠ [] := by
  simp [memLabel]

theorem attempts_on_span (T sp1 ds tail : Str)
    (hT : matchesClasses timePat T = true) (hTlen : T.length = 8)
    (hsp1 : ∀ a ∈ sp1, a = ' ') (hsp1n : sp1 ≠ [])
    (hds : ∀ a ∈ ds, a.isDigit = true) (hdsn : ds ≠ []) :
    timeAttempt (T ++ (sp1 ++ (ds ++ ('M' :: 'B' :: tail)))) = some T
    ∧ memTimeAttempt (T ++ (sp1 ++ (ds ++ ('M' :: 'B' :: tail))))
        = some (ds ++ ('M' :: 'B' :: []))
    ∧ memLabel (T ++ (sp1 ++ (ds ++ ('M' :: 'B' :: tail))))
        = ds ++ ('M' :: 'B' :: []) := by
  have hsp1' : ∀ a ∈ sp1, (fun c => decide (c = ' ')) a = true := by
    intro a ha
    simp [hsp1 a ha]
  obtain ⟨d, ds', hdd⟩ := List.exists_cons_of_ne_nil hdsn
  have hd : d.isDigit = true := hds d (by rw [hdd]; simp)
  have hdsp : (fun c => decide (c = ' ')) d = false := by
    have : d ≠ ' ' := by
      intro hcon
      rw [hcon] at hd
      exact absurd hd (by decide)
    simp [this]
  have hMd : Char.isDigit 'M' = false := by decide
  have hmc : matchesClasses timePat (T ++ (sp1 ++ (ds ++ ('M' :: 'B' :: tail))))
      = true := by
    rw [matchesClasses_append (by rw [hTlen]; rfl)]
    exact hT
  have hdrop : (T ++ (sp1 ++ (ds ++ ('M' :: 'B' :: tail)))).drop 8
      = sp1 ++ (ds ++ ('M' :: 'B' :: tail)) := List.drop_left' hTlen
  have htake : (T ++ (sp1 ++ (ds ++ ('M' :: 'B' :: tail)))).take 8 = T :=
    List.take_left' hTlen
  have hsp1eq : (sp1 ++ (ds ++ ('M' :: 'B' :: tail))).takeWhile
      (fun c => decide (c = ' ')) = sp1 := by
    rw [hdd]
    exact takeWhile_all_cons hsp1' hdsp _
  have hr2 : (sp1 ++ (ds ++ ('M' :: 'B' :: tail))).dropWhile
      (fun c => decide (c = ' ')) = ds ++ ('M' :: 'B' :: tail) := by
    rw [hdd]
    exact dropWhile_all_cons hsp1' hdsp _
  have hdseq : (ds ++ ('M' :: 'B' :: tail)).takeWhile Char.isDigit = ds :=
    takeWhile_all_cons hds hMd _
  have hr3 : (ds ++ ('M' :: 'B' :: tail)).dropWhile Char.isDigit
      = 'M' :: 'B' :: tail := dropWhile_all_cons hds hMd _
  have hsp1ne : sp1.isEmpty = false := by
    simp [List.isEmpty_iff, hsp1n]
  have hdsne : ds.isEmpty = false := by
    simp [List.isEmpty_iff, hdsn]
  refine ⟨?_, ?_, ?_⟩
  · unfold timeAttempt
    rw [if_pos hmc]
    dsimp only
    rw [hdrop, hsp1eq, hr2, hdseq, hr3, hsp1ne, hdsne, htake]
    rfl
  · unfold memTimeAttempt
    rw [if_pos hmc]
    dsimp only
    rw [hdrop, hsp1eq, hr2, hdseq, hr3, hsp1ne, hdsne]
    rfl
  · unfold memLabel
    rw [hdrop, hr2, hdseq]

theorem memAttempt_shape {s span : Str} (h : memAttempt s = some span) :
    ∃ sp1 ds tail,
      span = s.take 8 ++ (sp1 ++ (ds ++ ('M' :: 'B' :: tail)))
      ∧ matchesClasses timePat s = true
      ∧ (∀ a ∈ sp1, a = ' ') ∧ sp1 ≠ []
      ∧ (∀ a ∈ ds, a.isDigit = true) ∧ ds ≠ [] := by
  unfold memAttempt at h
  split at h
  case isFalse => exact absurd h (by simp)
  case isTrue h8 =>
    dsimp only at h
    split at h
    case isTrue => exact absurd h (by simp)
    case isFalse hsp1 =>
      split at h
      case isTrue => exact absurd h (by simp)
      case isFalse hds =>
        split at h
        case h_2 => exact absurd h (by simp)
        case h_1 r4 heq =>
          split at h
          case isTrue => exact absurd h (by simp)
          case isFalse hsp2 =>
            split at h
            case isFalse => exact absurd h (by simp)
            case isTrue hpipe =>
              rw [Option.some.injEq] at h
              refine ⟨(s.drop 8).takeWhile (fun c => c = ' '),
                ((s.drop 8).dropWhile (fun c => c = ' ')).takeWhile Char.isDigit,
                r4.takeWhile (fun c => c = ' ') ++ ('|' :: []), ?_, h8, ?_, ?_, ?_, ?_⟩
              · rw [← h]
                simp
              · intro a ha
                have := List.mem_takeWhile_imp ha
                simpa using this
              · intro hcon
                rw [hcon] at hsp1
                exact hsp1 rfl
              · intro a ha
                exact List.mem_takeWhile_imp ha
              · intro hcon
                rw [hcon] at hds
                exact hds rfl

theorem memAttempt_spec {s span : Str} (h : memAttempt s = some span) :
    timeAttempt span = some (span.take 8)
    ∧ memTimeAttempt span = some (memLabel span)
    ∧ span.isEmpty = false := by
  obtain ⟨sp1, ds, tail, hspan, h8, hsp1, hsp1n, hds, hdsn⟩ := memAttempt_shape h
  have hTlen : (s.take 8).length = 8 := by
    have hle : (8 : Nat) ≤ s.length := by
      have hml := matchesClasses_length h8
      simpa [timePat] using hml
    simp [List.length_take, Nat.min_eq_left hle]
  have hT : matchesClasses timePat (s.take 8) = true := by
    have h1 : matchesClasses timePat (s.take 8 ++ s.drop 8)
        = matchesClasses timePat (s.take 8) :=
      matchesClasses_append (by rw [hTlen]; rfl) _
    rw [List.take_append_drop] at h1
    rw [← h1]
    exact h8
  obtain ⟨hta, hmta, hlab⟩ :=
    attempts_on_span (s.take 8) sp1 ds tail hT hTlen hsp1 hsp1n hds hdsn
  have hTne : s.take 8 ≠ [] := by
    intro hc
    rw [hc] at hTlen
    simp at hTlen
  refine ⟨?_, ?_, ?_⟩
  · rw [hspan, hta, List.take_left' hTlen]
  · rw [hspan, hmta, hlab]
  · rw [hspan]
    simp [List.isEmpty_iff, hTne]

/-! ## Characterisation of the memory-usage accumulation -/

theorem memoryStep_mem_char {m : LogBrowserModel} {line span : Str}
    (hd : goodDict m.memory_usage)
    (h : searchFirst memAttempt line = some span) :
    (memoryStep m line).memory_usage =
      if (dictGet m.memory_usage (some (span.take 8))).isSome
      then m.memory_usage
      else m.memory_usage ++ ((some (span.take 8), memLabel span) :: []) := by
  obtain ⟨t, _, hat⟩ := searchFirst_exists_suffix h
  obtain ⟨hta, hmta, hne⟩ := memAttempt_spec hat
  have hta' : searchFirst timeAttempt span = some (span.take 8) :=
    searchFirst_of_attempt hta
  have hmta' : searchFirst memTimeAttempt span = some (memLabel span) :=
    searchFirst_of_attempt hmta
  unfold memoryStep
  rw [h]
  dsimp only
  rw [if_neg (by simp [hne]), hta', goodDict_truthy hd]
  by_cases hk : (dictGet m.memory_usage (some (span.take 8))).isSome
  · rw [if_pos hk, if_pos hk]
  · rw [if_neg hk, if_neg hk, hmta']
    dsimp only
    rw [if_neg (by simp [List.isEmpty_iff, memLabel_ne_nil span])]
    have hnone : dictGet m.memory_usage (some (span.take 8)) = none :=
      Option.not_isSome_iff_eq_none.mp hk
    rw [dictSet_of_absent hnone]

theorem parse_line_mem {m : LogBrowserModel} {l : Str}
    (hd : goodDict m.memory_usage) :
    (parse_line m l).memory_usage =
      match searchFirst memAttempt l with
      | none => m.memory_usage
      | some span =>
        if (dictGet m.memory_usage (some (span.take 8))).isSome
        then m.memory_usage
        else m.memory_usage ++ ((some (span.take 8), memLabel span) :: []) := by
  unfold parse_line
  rw [errStep_mem, warnStep_mem]
  cases h : searchFirst memAttempt l with
  | none =>
    unfold memoryStep
    rw [h, renderStep_mem]
  | some span =>
    have hd' : goodDict (renderStep m l).memory_usage := by
      rw [renderStep_mem]
      exact hd
    rw [memoryStep_mem_char hd' h, renderStep_mem]

theorem parse_line_good {m : LogBrowserModel} (hd : goodDict m.memory_usage)
    (l : Str) : goodDict (parse_line m l).memory_usage := by
  rw [parse_line_mem hd]
  cases h : searchFirst memAttempt l with
  | none => exact hd
  | some span =>
    dsimp only
    split
    · exact hd
    · intro kv hkv
      rcases List.mem_append.mp hkv with hk | hk
      · exact hd kv hk
      · have : kv = (some (span.take 8), memLabel span) := by simpa using hk
        rw [this]
        exact memLabel_ne_nil span

theorem addKeys_nodup (ks : List (Option Str)) :
    ∀ seen, seen.Nodup → (addKeys seen ks).Nodup := by
  induction ks with
  | nil => intro seen h; exact h
  | cons k ks ih =>
    intro seen h
    unfold addKeys
    by_cases hk : k ∈ seen
    · rw [if_pos hk]
      exact ih seen h
    · rw [if_neg hk]
      apply ih
      simp [List.nodup_append, h, hk]

theorem foldl_mem_keys (lines : List Str) : ∀ m : LogBrowserModel,
    goodDict m.memory_usage →
    (lines.foldl parse_line m).memory_usage.map Prod.fst
      = addKeys (m.memory_usage.map Prod.fst) (lines.filterMap memKey) := by
  induction lines with
  | nil => intro m _; simp [addKeys]
  | cons l ls ih =>
    intro m hd
    simp only [List.foldl_cons]
    rw [ih _ (parse_line_good hd l)]
    cases h : searchFirst memAttempt l with
    | none =>
      have hmem : (parse_line m l).memory_usage = m.memory_usage := by
        rw [parse_line_mem hd, h]
      have hkey : memKey l = none := by simp [memKey, h]
      rw [hmem, List.filterMap_cons_none hkey]
    | some span =>
      have hkey : memKey l = some (some (span.take 8)) := by simp [memKey, h]
      rw [List.filterMap_cons_some hkey]
      by_cases hk : (some (span.take 8)) ∈ m.memory_usage.map Prod.fst
      · have hmem : (parse_line m l).memory_usage = m.memory_usage := by
          rw [parse_line_mem hd, h]
          dsimp only
          rw [if_pos ((dictGet_isSome_iff _ _).mpr hk)]
        rw [hmem]
        conv_rhs => rw [addKeys, if_pos hk]
      · have hmem : (parse_line m l).memory_usage
            = m.memory_usage ++ ((some (span.take 8), memLabel span) :: []) := by
          rw [parse_line_mem hd, h]
          dsimp only
          rw [if_neg (fun hc => hk ((dictGet_isSome_iff _ _).mp hc))]
        rw [hmem, List.map_append]
        simp only [List.map_cons, List.map_nil]
        conv_rhs => rw [addKeys, if_neg hk]

theorem parse_line_extends {m : LogBrowserModel} (hd : goodDict m.memory_usage)
    (l : Str) :
    m.memory_usage <+: (parse_line m l).memory_usage
    ∧ m.warnings <+: (parse_line m l).warnings
    ∧ m.errors <+: (parse_line m l).errors := by
  refine ⟨?_, ?_, ?_⟩
  · rw [parse_line_mem hd]
    cases h : searchFirst memAttempt l with
    | none => exact List.prefix_refl _
    | some span =>
      dsimp only
      split
      · exact List.prefix_refl _
      · exact List.prefix_append _ _
  · rw [parse_line_warnings]
    exact List.prefix_append _ _
  · rw [parse_line_errors]
    exact List.prefix_append _ _

/-! ## A trailing newline is invisible to every matcher -/

theorem isPrefixOf_concat {marker t : Str} {c : Char} (hc : c ∉ marker) :
    marker.isPrefixOf (t ++ (c :: [])) = marker.isPrefixOf t := by
  rw [Bool.eq_iff_iff]
  simp only [List.isPrefixOf_iff_prefix]
  constructor
  · intro h
    rcases List.prefix_concat_iff.mp h with h1 | h1
    · exact absurd (by rw [h1]; simp : c ∈ marker) hc
    · exact h1
  · intro h
    exact h.trans (List.prefix_append _ _)

theorem renderAttempt_concat_nl {t : Str} (hnl : ('\n') ∉ t) :
    renderAttempt (t ++ ('\n' :: [])) = renderAttempt t := by
  unfold renderAttempt
  rw [isPrefixOf_concat (by decide)]
  by_cases hp : renderMarker.isPrefixOf t
  · rw [if_pos hp, if_pos hp]
    have hlen : renderMarker.length ≤ t.length :=
      List.IsPrefix.length_le (List.isPrefixOf_iff_prefix.mp hp)
    rw [List.drop_append_of_le_length hlen]
    have hx : ∀ a ∈ t.drop renderMarker.length,
        (fun c => decide (c ≠ '\n')) a = true := by
      intro a ha
      have hne : a ≠ '\n' := by
        intro hcon
        exact hnl (hcon ▸ List.mem_of_mem_drop ha)
      simp [hne]
    have hnlf : (fun c => decide (c ≠ '\n')) '\n' = false := by decide
    unfold tailCapture
    rw [dropWhile_all_cons hx hnlf, takeWhile_all_cons hx hnlf,
      dropWhile_all hx, takeWhile_all hx]
    rfl
  · rw [if_neg hp, if_neg hp]

theorem markerAttempt_concat_nl {marker : Str} (hm : ('\n') ∉ marker) (t : Str) :
    markerAttempt marker (t ++ ('\n' :: [])) = markerAttempt marker t := by
  unfold markerAttempt
  rw [isPrefixOf_concat hm]
  by_cases hp : marker.isPrefixOf t
  · rw [if_pos hp, if_pos hp]
    have hlen : marker.length ≤ t.length :=
      List.IsPrefix.length_le (List.isPrefixOf_iff_prefix.mp hp)
    rw [List.drop_append_of_le_length hlen,
      takeWhile_concat_neg (show (fun c => decide (c ≠ '\n')) '\n' = false by decide)]
  · rw [if_neg hp, if_neg hp]

theorem mbTail_concat_nl (r : Str) :
    mbTail (r ++ ('\n' :: [])) = (mbTail r).map (fun x => x ++ ('\n' :: [])) := by
  rcases r with _ | ⟨c1, r1⟩
  · rfl
  rcases r1 with _ | ⟨c2, r2⟩
  · unfold mbTail
    rw [if_neg (by simp), if_neg (by simp)]
    rfl
  · unfold mbTail
    simp only [List.cons_append, List.take_succ_cons, List.take_zero,
      List.drop_succ_cons, List.drop_zero]
    by_cases hc : (c1 :: c2 :: [] : Str) = ('M' :: 'B' :: [])
    · rw [if_pos hc, if_pos hc]
      rfl
    · rw [if_neg hc, if_neg hc]
      rfl

theorem pipeStart_concat_nl (r : Str) :
    pipeStart (r ++ ('\n' :: [])) = pipeStart r := by
  rcases r with _ | ⟨d, r6⟩
  · rfl
  · rfl

theorem memAttempt_concat_nl (t : Str) :
    memAttempt (t ++ ('\n' :: [])) = memAttempt t := by
  have hcls : ∀ p ∈ timePat, p '\n' = false := by
    intro p hp
    simp only [timePat, List.mem_cons] at hp
    rcases hp with h|h|h|h|h|h|h|h|h
    · rw [h]; decide
    · rw [h]; decide
    · rw [h]; decide
    · rw [h]; decide
    · rw [h]; decide
    · rw [h]; decide
    · rw [h]; decide
    · rw [h]; decide
    · exact absurd h (List.not_mem_nil p)
  have hsp : (fun c => decide (c = ' ')) '\n' = false := by decide
  have hdg : Char.isDigit '\n' = false := by decide
  unfold memAttempt
  rw [matchesClasses_concat_neg hcls t]
  by_cases h8 : matchesClasses timePat t
  case neg => rw [if_neg h8, if_neg h8]
  case pos =>
    rw [if_pos h8, if_pos h8]
    have hlen : (8 : Nat) ≤ t.length := by
      have hml := matchesClasses_length h8
      simpa [timePat] using hml
    dsimp only
    rw [List.take_append_of_le_length hlen, List.drop_append_of_le_length hlen,
      takeWhile_concat_neg hsp, dropWhile_concat_neg hsp]
    by_cases hsp1 : ((t.drop 8).takeWhile (fun c => decide (c = ' '))).isEmpty
    · rw [if_pos hsp1, if_pos hsp1]
    · rw [if_neg hsp1, if_neg hsp1, takeWhile_concat_neg hdg,
        dropWhile_concat_neg hdg]
      by_cases hds : (((t.drop 8).dropWhile
          (fun c => decide (c = ' '))).takeWhile Char.isDigit).isEmpty
      · rw [if_pos hds, if_pos hds]
      · rw [if_neg hds, if_neg hds, mbTail_concat_nl]
        cases mbTail (((t.drop 8).dropWhile
            (fun c => decide (c = ' '))).dropWhile Char.isDigit) with
        | none => rfl
        | some r4 =>
          simp only [Option.map_some']
          rw [takeWhile_concat_neg hsp, dropWhile_concat_neg hsp,
            pipeStart_concat_nl]

theorem searchRender_concat_nl {s : Str} (hnl : ('\n') ∉ s) :
    searchFirst renderAttempt (s ++ ('\n' :: [])) = searchFirst renderAttempt s :=
  searchFirst_concat s (fun _t ht =>
    renderAttempt_concat_nl (fun hm => hnl (List.IsSuffix.mem hm ht)))

theorem searchMarker_concat_nl {marker : Str} (hm : ('\n') ∉ marker) (s : Str) :
    searchFirst (markerAttempt marker) (s ++ ('\n' :: []))
      = searchFirst (markerAttempt marker) s :=
  searchFirst_concat s (fun t _ => markerAttempt_concat_nl hm t)

theorem searchMem_concat_nl (s : Str) :
    searchFirst memAttempt (s ++ ('\n' :: [])) = searchFirst memAttempt s :=
  searchFirst_concat s (fun t _ => memAttempt_concat_nl t)

theorem parse_line_strip {m : LogBrowserModel} {l : Str} (hn : noInteriorNl l) :
    parse_line m (stripTrailingNl l) = parse_line m l := by
  rcases List.eq_nil_or_concat l with hl | ⟨l', a, hl⟩
  · subst hl
    rfl
  · rw [List.concat_eq_append] at hl
    subst hl
    unfold noInteriorNl at hn
    rw [List.dropLast_concat] at hn
    by_cases ha : a = '\n'
    · subst ha
      have hstrip : stripTrailingNl (l' ++ ('\n' :: [])) = l' := by
        unfold stripTrailingNl
        rw [List.getLast?_concat, if_pos rfl, List.dropLast_concat]
      rw [hstrip]
      have h1 := searchRender_concat_nl hn
      have h2 := searchMem_concat_nl l'
      have h3 := searchMarker_concat_nl (show ('\n') ∉ warnMarker by decide) l'
      have h4 := searchMarker_concat_nl (show ('\n') ∉ errMarker by decide) l'
      unfold parse_line renderStep memoryStep warnStep errStep
      rw [h1, h2, h3, h4]
    · have hstrip : stripTrailingNl (l' ++ (a :: [])) = l' ++ (a :: []) := by
        unfold stripTrailingNl
        rw [List.getLast?_concat, if_neg (by simp [ha])]
      rw [hstrip]

theorem foldl_strip : ∀ lines : List Str, (∀ l ∈ lines, noInteriorNl l) →
    ∀ m : LogBrowserModel,
    (lines.map stripTrailingNl).foldl parse_line m = lines.foldl parse_line m := by
  intro lines
  induction lines with
  | nil => intro _ m; rfl
  | cons l ls ih =>
    intro hn m
    simp only [List.map_cons, List.foldl_cons]
    rw [parse_line_strip (hn l (by simp))]
    exact ih (fun x hx => hn x (by simp [hx])) _

/-! ## The parse pass depends on the state only through the result fields -/

theorem memoryStep_mem_fun (m : LogBrowserModel) (l : Str) :
    (memoryStep m l).memory_usage =
      match searchFirst memAttempt l with
      | none => m.memory_usage
      | some span =>
        if span.isEmpty then m.memory_usage
        else if truthyOpt (dictGet m.memory_usage (searchFirst timeAttempt span))
        then m.memory_usage
        else
          match searchFirst memTimeAttempt span with
          | none => m.memory_usage
          | some mt =>
            if mt.isEmpty then m.memory_usage
            else dictSet m.memory_usage (searchFirst timeAttempt span) mt := by
  unfold memoryStep
  cases searchFirst memAttempt l with
  | none => rfl
  | some span =>
    dsimp only
    by_cases h1 : span.isEmpty
    · rw [if_pos h1, if_pos h1]
    · rw [if_neg h1, if_neg h1]
      by_cases h2 : truthyOpt (dictGet m.memory_usage (searchFirst timeAttempt span))
      · rw [if_pos h2, if_pos h2]
      · rw [if_neg h2, if_neg h2]
        cases searchFirst memTimeAttempt span with
        | none => rfl
        | some mt =>
          dsimp only
          by_cases h3 : mt.isEmpty
          · rw [if_pos h3, if_pos h3]
          · rw [if_neg h3, if_neg h3]

theorem parse_line_mem_fun (m : LogBrowserModel) (l : Str) :
    (parse_line m l).memory_usage =
      match searchFirst memAttempt l with
      | none => m.memory_usage
      | some span =>
        if span.isEmpty then m.memory_usage
        else if truthyOpt (dictGet m.memory_usage (searchFirst timeAttempt span))
        then m.memory_usage
        else
          match searchFirst memTimeAttempt span with
          | none => m.memory_usage
          | some mt =>
            if mt.isEmpty then m.memory_usage
            else dictSet m.memory_usage (searchFirst timeAttempt span) mt := by
  unfold parse_line
  rw [errStep_mem, warnStep_mem, memoryStep_mem_fun, renderStep_mem]

theorem parse_line_congr {m m' : LogBrowserModel} (l : Str)
    (h : parseResultOf m = parseResultOf m') :
    parseResultOf (parse_line m l) = parseResultOf (parse_line m' l) := by
  have hr : m.render_time = m'.render_time := congrArg ParseResult.render_time h
  have hm : m.memory_usage = m'.memory_usage := congrArg ParseResult.memory_usage h
  have hw : m.warnings = m'.warnings := congrArg ParseResult.warnings h
  have he : m.errors = m'.errors := congrArg ParseResult.errors h
  unfold parseResultOf
  simp only [ParseResult.mk.injEq]
  refine ⟨?_, ?_, ?_, ?_⟩
  · rw [parse_line_render, parse_line_render, hr]
  · rw [parse_line_mem_fun, parse_line_mem_fun, hm]
  · rw [parse_line_warnings, parse_line_warnings, hw]
  · rw [parse_line_errors, parse_line_errors, he]

theorem foldl_congr (lines : List Str) : ∀ {m m' : LogBrowserModel},
    parseResultOf m = parseResultOf m' →
    parseResultOf (lines.foldl parse_line m)
      = parseResultOf (lines.foldl parse_line m') := by
  induction lines with
  | nil => intro m m' h; exact h
  | cons l ls ih =>
    intro m m' h
    exact ih (parse_line_congr l h)

theorem parse_map_strip (lines : List Str) (hn : ∀ l ∈ lines, noInteriorNl l) :
    parseResultOf (parse (lines.map stripTrailingNl)) = parseResultOf (parse lines) := by
  unfold parse load_and_parse parse_log store_raw_log reset_data
  dsimp only
  rw [foldl_strip lines hn]
  exact foldl_congr lines rfl

/-! ## The raw log is never touched by the parse pass -/

theorem parse_line_raw (m : LogBrowserModel) (l : Str) :
    (parse_line m l).raw_log = m.raw_log := by
  unfold parse_line
  rw [errStep_raw, warnStep_raw, memoryStep_raw, renderStep_raw]

theorem foldl_raw (lines : List Str) : ∀ m : LogBrowserModel,
    (lines.foldl parse_line m).raw_log = m.raw_log := by
  induction lines with
  | nil => intro m; rfl
  | cons l ls ih =>
    intro m
    rw [List.foldl_cons, ih, parse_line_raw]

/-! ## Marker search succeeds exactly on lines containing the marker -/

theorem markerSearch_isSome_iff (marker l : Str) :
    (searchFirst (markerAttempt marker) l).isSome = true ↔ marker <:+: l := by
  constructor
  · intro h
    obtain ⟨r, hr⟩ := Option.isSome_iff_exists.mp h
    obtain ⟨t, hts, hta⟩ := searchFirst_exists_suffix hr
    unfold markerAttempt at hta
    by_cases hp : marker.isPrefixOf t
    · exact List.infix_iff_prefix_suffix.mpr
        ⟨t, List.isPrefixOf_iff_prefix.mp hp, hts⟩
    · rw [if_neg hp] at hta
      exact absurd hta (by simp)
  · intro h
    obtain ⟨t, hpt, hts⟩ := List.infix_iff_prefix_suffix.mp h
    apply searchFirst_isSome_of_suffix hts
    unfold markerAttempt
    rw [if_pos (List.isPrefixOf_iff_prefix.mpr hpt)]
    rfl

/-! ## The read stage and the browse control flow -/

/-! ## The claims -/

/-- C1: a line matched by the memory-usage pattern contributes the pair
(`HH:MM:SS` label, `<digits>MB` label) taken from the leftmost matched span,
and the pair is recorded only when that time label is not already a key of
the accumulated mapping (first occurrence per distinct time label wins); in
particular the single line `00:01:23  512MB | scene loaded` yields exactly
the mapping `[("00:01:23", "512MB")]`. -/
theorem C1_memory_pair_first_wins :
    (∀ (m : LogBrowserModel) (line span : Str), goodDict m.memory_usage →
      searchFirst memAttempt line = some span →
      (parse_line m line).memory_usage =
        if (dictGet m.memory_usage (some (span.take 8))).isSome
        then m.memory_usage
        else m.memory_usage ++ ((some (span.take 8), memLabel span) :: []))
    ∧ (parse ((("00:01:23  512MB | scene loaded").data) :: [])).memory_usage
        = ((some (("00:01:23").data), ("512MB").data) :: []) := by
  constructor
  · intro m line span hd h
    rw [parse_line_mem hd, h]
  · decide

/-- C1 witness: the step characterisation instantiated on the spec's sample
line starting from the fresh model. -/
theorem C1_witness :
    (parse_line initialModel (("00:01:23  512MB | scene loaded").data)).memory_usage
      = if (dictGet initialModel.memory_usage
              (some (((("00:01:23  512MB |").data)).take 8))).isSome
        then initialModel.memory_usage
        else initialModel.memory_usage
          ++ ((some (((("00:01:23  512MB |").data)).take 8),
               memLabel (("00:01:23  512MB |").data)) :: []) :=
  C1_memory_pair_first_wins.1 initialModel (("00:01:23  512MB | scene loaded").data)
    (("00:01:23  512MB |").data) (by decide) (by decide)

/-- C2 counterexample: the second line matches `render done in (.*)$` with
the empty tail, so by the claim (last matching line wins) the stored render
time should be the empty string, but the code keeps `10s`: an empty capture
is falsy and never overwrites. -/
theorem C2_counterexample :
    searchFirst renderAttempt (("render done in ").data) = some []
    ∧ (parse ((("render done in 10s").data) :: (("render done in ").data) :: [])).render_time
        = some (("10s").data)
    ∧ (parse ((("render done in 10s").data) :: (("render done in ").data) :: [])).render_time
        ≠ some ([] : Str) := by
  refine ⟨by decide, by decide, by decide⟩

/-- C2 (amended): after parse the stored render_time equals the tail
captured from the last line whose `render done in (.*)$` match captures a
nonempty tail (arbitrary prefix text allowed before the marker), and is
absent when no line has a match with a nonempty tail; with
`["render done in 10s", "render done in 20s"]` the result is `20s`. -/
theorem C2_render_last_nonempty_wins (lines : List Str) :
    (parse lines).render_time = (lines.filterMap renderCapture).getLast?
    ∧ (parse ((("render done in 10s").data) :: (("render done in 20s").data) :: [])).render_time
        = some (("20s").data) := by
  constructor
  · unfold parse load_and_parse parse_log store_raw_log reset_data
    dsimp only
    rw [foldl_render]
    cases (lines.filterMap renderCapture).getLast? <;> rfl
  · decide

/-- C3: warnings is exactly one entry per line containing `WARNING`, in
source order without deduplication, each entry being the text from the first
occurrence of the marker (inclusive) to end-of-line; errors is built the
same way for `ERROR`; a single line can contribute to both rules. -/
theorem C3_warn_err_accumulation (lines : List Str) :
    (parse lines).warnings
      = lines.filterMap (fun l => searchFirst (markerAttempt warnMarker) l)
    ∧ (parse lines).errors
      = lines.filterMap (fun l => searchFirst (markerAttempt errMarker) l)
    ∧ (∀ l : Str, (searchFirst (markerAttempt warnMarker) l).isSome = true
        ↔ warnMarker <:+: l)
    ∧ (∀ l : Str, (searchFirst (markerAttempt errMarker) l).isSome = true
        ↔ errMarker <:+: l)
    ∧ (parse ((("WARNING: low memory").data) :: (("INFO: ok").data)
          :: (("WARNING: disk slow").data) :: [])).warnings
        = ((("WARNING: low memory").data) :: (("WARNING: disk slow").data) :: [])
    ∧ (parse ((("WARNING then ERROR: bad").data) :: [])).warnings
        = ((("WARNING then ERROR: bad").data) :: [])
    ∧ (parse ((("WARNING then ERROR: bad").data) :: [])).errors
        = ((("ERROR: bad").data) :: []) := by
  refine ⟨?_, ?_, fun l => markerSearch_isSome_iff warnMarker l,
    fun l => markerSearch_isSome_iff errMarker l, by decide, by decide, by decide⟩
  · unfold parse load_and_parse parse_log store_raw_log reset_data
    dsimp only
    rw [foldl_warnings]
    simp
  · unfold parse load_and_parse parse_log store_raw_log reset_data
    dsimp only
    rw [foldl_errors]
    simp

/-- C3 witness: the accumulation equations evaluated on the spec's
three-line sample. -/
theorem C3_witness :
    (parse ((("WARNING: low memory").data) :: (("INFO: ok").data)
        :: (("WARNING: disk slow").data) :: [])).warnings
      = ((("WARNING: low memory").data) :: (("WARNING: disk slow").data) :: []) :=
  (C3_warn_err_accumulation []).2.2.2.2.1

/-- C4: the reset-store-parse sequence run by the browse handlers is a pure
function of the input lines: the prior model state is irrelevant, repeating
it on the same input gives a structurally equal state, and it coincides with
the abstract `parse`. -/
theorem C4_parse_pure_idempotent (m m' : LogBrowserModel) (lines : List Str) :
    load_and_parse m lines = load_and_parse m' lines
    ∧ load_and_parse (load_and_parse m lines) lines = load_and_parse m lines
    ∧ load_and_parse m lines = parse lines :=
  ⟨rfl, rfl, rfl⟩

/-- C5: parse is total — it returns a result state for every sequence of
lines (the embedding has no failure channel, matching the code, whose only
per-line operations are `re.search` calls that cannot raise) — and a line
matching none of the four rules contributes nothing. -/
theorem C5_parse_total_no_match_no_effect :
    (∀ lines : List Str, ∃ r : LogBrowserModel, parse lines = r)
    ∧ (∀ (m : LogBrowserModel) (line : Str),
        searchFirst renderAttempt line = none →
        searchFirst memAttempt line = none →
        searchFirst (markerAttempt warnMarker) line = none →
        searchFirst (markerAttempt errMarker) line = none →
        parse_line m line = m) := by
  constructor
  · intro lines
    exact ⟨parse lines, rfl⟩
  · intro m line h1 h2 h3 h4
    unfold parse_line errStep warnStep memoryStep renderStep
    rw [h1, h2, h3, h4]

/-- C5 witness: a line matching no rule leaves the fresh model unchanged. -/
theorem C5_witness : parse_line initialModel (("INFO: ok").data) = initialModel :=
  C5_parse_total_no_match_no_effect.2 initialModel (("INFO: ok").data)
    (by decide) (by decide) (by decide) (by decide)

/-- C6: after parse the memory-usage keys are pairwise distinct and listed
in first-occurrence order of the per-line key sequence of the source log;
warnings and errors are the in-order filter of the lines; and one parse step
only ever extends the three collections (nothing is removed once added). -/
theorem C6_result_invariants (lines : List Str) :
    ((parse lines).memory_usage.map Prod.fst).Nodup
    ∧ (parse lines).memory_usage.map Prod.fst = addKeys [] (lines.filterMap memKey)
    ∧ (parse lines).warnings
      = lines.filterMap (fun l => searchFirst (markerAttempt warnMarker) l)
    ∧ (parse lines).errors
      = lines.filterMap (fun l => searchFirst (markerAttempt errMarker) l)
    ∧ (∀ (m : LogBrowserModel) (l : Str), goodDict m.memory_usage →
        m.memory_usage <+: (parse_line m l).memory_usage
        ∧ m.warnings <+: (parse_line m l).warnings
        ∧ m.errors <+: (parse_line m l).errors) := by
  have hgood : goodDict (([] : List (Option Str × Str))) := by
    intro kv hkv
    exact absurd hkv (List.not_mem_nil kv)
  have hkeys : (parse lines).memory_usage.map Prod.fst
      = addKeys [] (lines.filterMap memKey) := by
    unfold parse load_and_parse parse_log store_raw_log reset_data
    dsimp only
    rw [foldl_mem_keys lines _ hgood]
    rfl
  refine ⟨?_, hkeys, ?_, ?_, fun m l hd => parse_line_extends hd l⟩
  · rw [hkeys]
    exact addKeys_nodup _ [] List.nodup_nil
  · unfold parse load_and_parse parse_log store_raw_log reset_data
    dsimp only
    rw [foldl_warnings]
    simp
  · unfold parse load_and_parse parse_log store_raw_log reset_data
    dsimp only
    rw [foldl_errors]
    simp

/-- C6 witness: distinct keys on a concrete log, and a concrete parse step
extending the stored warnings. -/
theorem C6_witness :
    ((parse ((("00:01:23  512MB | a").data) :: (("00:01:24  513MB | b").data)
        :: [])).memory_usage.map Prod.fst).Nodup
    ∧ initialModel.memory_usage
        <+: (parse_line initialModel (("WARNING: w").data)).memory_usage :=
  ⟨(C6_result_invariants _).1,
   ((C6_result_invariants []).2.2.2.2 initialModel (("WARNING: w").data)
      (by decide)).1⟩

/-- C7 counterexample: removing a trailing space changes the captured render
tail (`1s ` versus `1s`), so parse on space-stripped lines differs from
parse on the original lines: the claim fails for trailing spaces. -/
theorem C7_counterexample :
    (parse ((("render done in 1s ").data) :: [])).render_time = some (("1s ").data)
    ∧ (parse ((("render done in 1s").data) :: [])).render_time = some (("1s").data)
    ∧ parseResultOf (parse ((("render done in 1s").data) :: []))
        ≠ parseResultOf (parse ((("render done in 1s ").data) :: [])) := by
  refine ⟨by decide, by decide, by decide⟩

/-- C7 (amended): parsing does not depend on the trailing line terminator:
for lines in which a newline occurs only as the final character (as
`readlines` produces), removing the trailing newline from each line yields
the same ParseResult; trailing spaces, by contrast, can change captured
text. -/
theorem C7_trailing_newline_invariant (lines : List Str)
    (h : ∀ l ∈ lines, noInteriorNl l) :
    parseResultOf (parse (lines.map stripTrailingNl)) = parseResultOf (parse lines) :=
  parse_map_strip lines h

/-- C7 witness: the invariance instantiated on a concrete newline-terminated
log. -/
theorem C7_witness :
    parseResultOf (parse ((((("WARNING: low memory" ++ "\n")).data)
        :: ((("render done in 10s" ++ "\n")).data) :: []).map stripTrailingNl))
      = parseResultOf (parse (((("WARNING: low memory" ++ "\n")).data)
        :: ((("render done in 10s" ++ "\n")).data) :: [])) :=
  C7_trailing_newline_invariant _ (by decide)

/-- C8: the read stage fails with a FileAccessError exactly when the path
cannot be read (the abstract file system yields nothing), and in that case
the browse flow returns the reset model — parse is never invoked and no
parsed data is produced. -/
theorem C8_read_failure (fs : Str → Option (List Str))
    (pathExists isLogExt : Str → Bool) (m : LogBrowserModel) (path : Str) :
    ((∃ e, readLines fs path = Except.error e) ↔ fs path = none)
    ∧ (fs path = none →
        ∃ e, browse_on_key_pressed fs pathExists isLogExt m path
            = (reset_data m, some e))
    ∧ ((reset_data m).render_time = none ∧ (reset_data m).memory_usage = []
        ∧ (reset_data m).warnings = [] ∧ (reset_data m).errors = []) := by
  refine ⟨⟨?_, ?_⟩, ?_, rfl, rfl, rfl, rfl⟩
  · rintro ⟨e, he⟩
    unfold readLines at he
    cases hf : fs path with
    | none => rfl
    | some lines =>
      rw [hf] at he
      exact absurd he (by simp)
  · intro hf
    unfold readLines
    rw [hf]
    exact ⟨FileAccessError.cannotOpen, rfl⟩
  · intro hf
    unfold browse_on_key_pressed readLines
    rw [hf]
    by_cases hg : (pathExists path && isLogExt path) = true
    · rw [if_pos hg]
      exact ⟨FileAccessError.cannotOpen, rfl⟩
    · rw [if_neg hg]
      exact ⟨FileAccessError.wrongPath, rfl⟩

/-- C8 witness: a file system with no readable paths makes the browse flow
surface an error on the reset model. -/
theorem C8_witness :
    ∃ e, browse_on_key_pressed (fun _ => none) (fun _ => true) (fun _ => true)
        initialModel (("missing.log").data) = (reset_data initialModel, some e) :=
  (C8_read_failure (fun _ => none) (fun _ => true) (fun _ => true)
    initialModel (("missing.log").data)).2.1 rfl

/-- C9: a line whose `render done in ` marker sits at end-of-line captures
the empty tail and does not overwrite the stored render time — the previous
value survives, and such a line alone leaves render_time absent. -/
theorem C9_empty_tail_no_overwrite (m : LogBrowserModel) (line : Str)
    (h : searchFirst renderAttempt line = some []) :
    (parse_line m line).render_time = m.render_time
    ∧ searchFirst renderAttempt (("render done in ").data) = some []
    ∧ (parse ((("render done in ").data) :: [])).render_time = none := by
  refine ⟨?_, by decide, by decide⟩
  rw [parse_line_render]
  unfold renderCapture
  rw [h]
  rfl

/-- C9 witness: an end-of-line marker line leaves the render time of the
fresh model untouched. -/
theorem C9_witness :
    (parse_line initialModel (("log: render done in ").data)).render_time
      = initialModel.render_time :=
  (C9_empty_tail_no_overwrite initialModel (("log: render done in ").data)
    (by decide)).1

/-- C10: the parse pass modifies nothing but the four result fields — the
stored raw log is unchanged by `parse_log`, and after the read-then-parse
flow it still equals, element for element, the line sequence delivered by
the read stage. -/
theorem C10_raw_log_unchanged (m : LogBrowserModel) (lines : List Str) :
    (parse_log m).raw_log = m.raw_log
    ∧ (parse_log (store_raw_log m lines)).raw_log = lines
    ∧ (parse lines).raw_log = lines := by
  refine ⟨?_, ?_, ?_⟩
  · unfold parse_log
    exact foldl_raw _ m
  · unfold parse_log store_raw_log
    dsimp only
    rw [foldl_raw]
  · unfold parse load_and_parse parse_log store_raw_log reset_data
    dsimp only
    rw [foldl_raw]
